import Mathlib

/-!
Shallow embedding of the Dove-Search crawl-and-index engine (src/app.py) and
proofs about its specified behaviour.  Pure helpers of the Python code become
Lean functions; the SQLite tables become lists of rows; the wall clock and the
storage layer's contention outcomes become explicit parameters.
-/

namespace DoveSearch

/-! ## String utilities shared by several components -/

/-- Python `str.lower` (ASCII fragment). -/
def lowerStr (s : String) : String :=
  String.mk (s.toList.map Char.toLower)

/-- Python `s.startswith(pre)` on strings (computed on the character
lists). -/
def strStartsWith (s pre : String) : Bool :=
  pre.toList.isPrefixOf s.toList

/-- Python `str.isalnum`: non-empty and every character alphanumeric
(ASCII fragment, which covers the corpus exercised here). -/
def pyIsAlnum (w : String) : Bool :=
  w != "" && w.toList.all (fun ch => ch.isAlpha || ch.isDigit)

/-- Counter for non-overlapping occurrences of a non-empty pattern in a
character list, scanning left to right: the semantics of Python `str.count`
for a non-empty pattern.  The fuel argument only bounds the recursion; every
step consumes at least one character, so fuel `s.length` is always enough. -/
def countOccAux (pat : List Char) : Nat → List Char → Nat
  | _, [] => 0
  | 0, _ => 0
  | fuel + 1, c :: rest =>
    if pat.isPrefixOf (c :: rest) then
      countOccAux pat fuel (rest.drop (pat.length - 1)) + 1
    else
      countOccAux pat fuel rest

/-- Python `s.count(pat)`: non-overlapping substring occurrences
(`len(s) + 1` for the empty pattern, as in CPython). -/
def strCount (s pat : String) : Nat :=
  match pat.toList with
  | [] => s.toList.length + 1
  | l => countOccAux l s.toList.length s.toList

/-- Whether `pat` occurs as a contiguous sublist of `s`. -/
def listIsInfix (pat : List Char) : List Char → Bool
  | [] => pat.isEmpty
  | c :: rest => pat.isPrefixOf (c :: rest) || listIsInfix pat rest

/-- SQLite `field LIKE '%pat%'` for a wildcard-free pattern: case-insensitive
substring containment. -/
def likeContains (s pat : String) : Bool :=
  listIsInfix (lowerStr pat).toList (lowerStr s).toList

/-! ## Keyword Extractor (`extract_keywords`, src/app.py lines 21-25) -/

/-- Whitespace splitter: the words of a character list, in order. -/
def wordsAux (acc : List Char) : List Char → List String
  | [] => if acc.isEmpty then [] else [String.mk acc.reverse]
  | c :: rest =>
    if c.isWhitespace then
      if acc.isEmpty then wordsAux [] rest
      else String.mk acc.reverse :: wordsAux [] rest
    else wordsAux (c :: acc) rest

/-- Models the external NLTK capability `word_tokenize` on plain
whitespace-separated text: split on whitespace runs, dropping empty pieces. -/
def word_tokenize (s : String) : List String :=
  wordsAux [] s.toList

/-- Models the external NLTK corpus `stopwords.words('english')`: the fixed
set of common English function words, including every stop-word the spec
exercises. -/
def stop_words : List String :=
  ["i", "me", "my", "we", "our", "you", "he", "she", "it", "they", "them",
   "a", "an", "the", "and", "or", "but", "if", "of", "at", "by", "for",
   "with", "to", "from", "in", "on", "is", "are", "was", "were", "be",
   "been", "this", "that", "these", "those", "not", "no", "so", "too"]

/-- `extract_keywords(query)`: tokenize, keep alphanumeric tokens whose
lowercase form is not a stop-word, and lowercase them. -/
def extract_keywords (query : String) : List String :=
  ((word_tokenize query).filter
    (fun w => pyIsAlnum w && !(stop_words.contains (lowerStr w)))).map lowerStr

example : extract_keywords "" = [] := by decide
example : extract_keywords "the and of" = [] := by decide
example : extract_keywords "Cats dogs" = ["cats", "dogs"] := by decide
example : strCount "cats cats dogs" "cats" = 2 := by decide
example : strCount "aaa" "aa" = 1 := by decide
example : likeContains "Cats and Dogs" "dog" = true := by decide

/-! ## Search & Rank (`simple_search` / `rank_result`, src/app.py lines 254-307) -/

/-- A row of the `pages` table as selected by `simple_search`
(`SELECT url, title, content FROM pages`). -/
structure Page where
  url : String
  title : String
  content : String
deriving DecidableEq, Repr

/-- Storage failures surfaced by the database layer. -/
inductive DBErr where
  | locked
  | other
deriving DecidableEq, Repr

/-- `rank_result(result)`: the ranking score of a page for the given
keywords, `Σ_kw title.lower().count(kw)*3 + url.lower().count(kw)*2 +
content.lower().count(kw)`. -/
def rank_result (keywords : List String) (r : Page) : Nat :=
  (keywords.map (fun kw =>
    strCount (lowerStr r.title) kw * 3 +
    strCount (lowerStr r.url) kw * 2 +
    strCount (lowerStr r.content) kw)).sum

/-- The SQL `WHERE` predicate of `simple_search`: for some keyword, the
pattern `%kw%` matches the title, the content or the url. -/
def pageMatches (keywords : List String) (p : Page) : Bool :=
  keywords.any (fun kw =>
    likeContains p.title kw || likeContains p.content kw || likeContains p.url kw)

/-- The candidate rows fetched by `simple_search`'s SQL query, in storage
order. -/
def searchCandidates (keywords : List String) (pages : List Page) : List Page :=
  pages.filter (pageMatches keywords)

/-- The comparison used by `sorted(results, key=rank_result, reverse=True)`:
`a` may precede `b` when its score is at least `b`'s. -/
def scoreGe (keywords : List String) (a b : Page) : Prop :=
  rank_result keywords b ≤ rank_result keywords a

instance (keywords : List String) : DecidableRel (scoreGe keywords) :=
  fun _ _ => Nat.decLe _ _

/-- Python `sorted(results, key=rank_result, reverse=True)`: a stable sort
placing higher scores first, ties kept in input order. -/
def sortByScoreDesc (keywords : List String) (rs : List Page) : List Page :=
  rs.insertionSort (scoreGe keywords)

/-- `simple_search(query, db_conn, limit=20)`: extract keywords, return `[]`
without touching storage when there are none; otherwise read the candidate
rows (the `db` argument stands for the outcome of the retried read: a row
list on success, an error when storage keeps failing, in which case the
function returns `[]`), rank them, stable-sort by score descending and
truncate to `limit`. -/
def simple_search (query : String) (db : Except DBErr (List Page))
    (limit : Nat := 20) : List Page :=
  let keywords := extract_keywords query
  if keywords.isEmpty then []
  else
    match db with
    | .error _ => []
    | .ok pages => (sortByScoreDesc keywords (searchCandidates keywords pages)).take limit

/-- The worked ranking example of the spec (§8). -/
def pageP1 : Page := ⟨"a", "cats and dogs", "dogs"⟩

/-- The second page of the spec's worked ranking example (§8). -/
def pageP2 : Page := ⟨"b", "dogs", "cats cats dogs"⟩

example : rank_result (extract_keywords "cats dogs") pageP1 = 7 := by decide
example : rank_result (extract_keywords "cats dogs") pageP2 = 6 := by decide
example : simple_search "cats dogs" (Except.ok [pageP2, pageP1]) = [pageP1, pageP2] := by decide

/-! ## Frontier (`add_url_to_queue` / the pop in `crawl_worker`, src/app.py) -/

/-- A row of the `crawl_queue` table:
`(url TEXT PRIMARY KEY, priority INTEGER, added_at TIMESTAMP)`. -/
structure QueueEntry where
  url : String
  priority : Int
  addedAt : Nat
deriving DecidableEq, Repr

/-- The outcome the storage layer reports for one attempted operation:
success, an `sqlite3.OperationalError` (lock contention), or some other
exception. -/
inductive StorageOutcome where
  | ok
  | lockErr
  | otherErr
deriving DecidableEq, Repr

/-- The crawler state touched by frontier operations: the persistent
`crawl_queue` table, the in-memory `queue.PriorityQueue` mirror
(`self.crawl_queue`, recorded as the list of puts), the in-memory
`self.visited_urls` set, and the total seconds spent in `time.sleep`
backoffs. -/
structure CrawlerState where
  dbQueue : List QueueEntry
  memQueue : List (Int × String)
  visited : List String
  slept : Nat
deriving DecidableEq, Repr

/-- `INSERT OR IGNORE INTO crawl_queue VALUES (?, ?, ?)`: no-op when a row
with the same primary-key url exists, append otherwise. -/
def insertOrIgnore (q : List QueueEntry) (e : QueueEntry) : List QueueEntry :=
  if q.any (fun x => x.url == e.url) then q else q ++ [e]

/-- Number of rows of the queue table holding the given url. -/
def countUrl (q : List QueueEntry) (u : String) : Nat :=
  q.countP (fun e => e.url == u)

/-- `add_url_to_queue(url, priority=1)` as a state transition on its
observable effects: no-op for an empty or visited url; otherwise
insert-or-ignore into the persistent queue and mirror the pair into the
in-memory priority queue.  The code's contention handler sleeps one second
and re-enters the push from the top; here an outcome list schedules the
storage layer's answer to each successive insert attempt (an empty list
means the remaining attempts are not observed), so the reachable results of
this rendering form a superset of the program's behaviours — the program
itself re-enters while still holding the non-reentrant `self.lock`, so a
real contention error never reaches a second attempt; `add_url_to_queue_sync`
is the lock-faithful model.  Any other storage error is swallowed
silently. -/
def add_url_to_queue (st : CrawlerState) (url : String) (priority : Int)
    (now : Nat) : List StorageOutcome → CrawlerState
  | [] => st
  | .ok :: _ =>
    if url = "" || st.visited.contains url then st
    else
      { st with
        dbQueue := insertOrIgnore st.dbQueue ⟨url, priority, now⟩
        memQueue := st.memQueue ++ [(priority, url)] }
  | .lockErr :: rest =>
    if url = "" || st.visited.contains url then st
    else add_url_to_queue { st with slept := st.slept + 1 } url priority now rest
  | .otherErr :: _ => st

/-- How a call of the lock-holding push ends: a normal return, or the
calling thread blocked forever on a lock acquire — the recorded state is
the state at the moment the call ends or blocks. -/
inductive PushResult where
  | returned (st : CrawlerState)
  | blocked (st : CrawlerState)
deriving DecidableEq, Repr

/-- The lock-faithful model of `add_url_to_queue` (src/app.py lines
95-111): after the guard, the whole body runs holding the non-reentrant
`threading.Lock` stored in `self.lock`, and the `sqlite3.OperationalError`
handler — still inside the `with self.lock:` block — sleeps one second and
calls the push again from the top; the inner call re-checks the guard
(whose inputs are unchanged within one push) and then blocks forever
acquiring the lock its own thread already holds.  Only the first storage
attempt's outcome can therefore matter: a success returns with the row
inserted and mirrored, a contention error sleeps one second and never
returns (`PushResult.blocked`, the insert never re-attempted, the tables
untouched), and any other storage error returns silently with nothing
changed. -/
def add_url_to_queue_sync (st : CrawlerState) (url : String) (priority : Int)
    (now : Nat) (attempt : StorageOutcome) : PushResult :=
  if url = "" || st.visited.contains url then .returned st
  else
    match attempt with
    | .ok =>
      .returned { st with
        dbQueue := insertOrIgnore st.dbQueue ⟨url, priority, now⟩
        memQueue := st.memQueue ++ [(priority, url)] }
    | .lockErr => .blocked { st with slept := st.slept + 1 }
    | .otherErr => .returned st

/-- Strict version of the pop ordering: earlier (priority, added_at). -/
def entryLt (a b : QueueEntry) : Bool :=
  a.priority < b.priority || (a.priority == b.priority && a.addedAt < b.addedAt)

/-- The pop ordering `ORDER BY priority, added_at`, non-strict. -/
def entryLe (a b : QueueEntry) : Bool :=
  a.priority < b.priority || (a.priority == b.priority && a.addedAt ≤ b.addedAt)

/-- Scan for the row `SELECT ... ORDER BY priority, added_at LIMIT 1`
returns, keeping the earliest-scanned row on full ties. -/
def selectMinAux (m : QueueEntry) : List QueueEntry → QueueEntry
  | [] => m
  | x :: rest => selectMinAux (if entryLt x m then x else m) rest

/-- The row `SELECT url, priority FROM crawl_queue ORDER BY priority,
added_at LIMIT 1` returns, if any. -/
def selectMin : List QueueEntry → Option QueueEntry
  | [] => none
  | e :: rest => some (selectMinAux e rest)

/-- The frontier pop performed at the top of `crawl_worker`: read the first
row in (priority, added_at) order and, in the same locked transaction,
`DELETE FROM crawl_queue WHERE url = ?`; `(none, q)` when the table is
empty. -/
def pop_from_db (q : List QueueEntry) : Option (String × Int) × List QueueEntry :=
  match selectMin q with
  | none => (none, q)
  | some e => (some (e.url, e.priority), q.filter (fun x => x.url != e.url))

/-- The pop as a transition of the crawler state: only the persistent queue
is read and written; the in-memory mirror is not consulted. -/
def frontier_pop (st : CrawlerState) : Option (String × Int) × CrawlerState :=
  let rq := pop_from_db st.dbQueue
  (rq.1, { st with dbQueue := rq.2 })

/-- An interleaved frontier workload: pushes (with their storage-outcome
schedules) and pops. -/
inductive FrontierOp where
  | push (url : String) (priority : Int) (now : Nat) (outcomes : List StorageOutcome)
  | pop
deriving Repr

/-- Run a workload, collecting the `(url, priority)` answer of every pop in
order. -/
def runOps : List FrontierOp → CrawlerState → List (Option (String × Int)) × CrawlerState
  | [], st => ([], st)
  | .push u p n oc :: rest, st => runOps rest (add_url_to_queue st u p n oc)
  | .pop :: rest, st =>
    let rs := frontier_pop st
    let tail := runOps rest rs.2
    (rs.1 :: tail.1, tail.2)

example :
    countUrl ((add_url_to_queue
      (add_url_to_queue ⟨[], [], [], 0⟩ "https://a.example/" 1 0 [.ok])
      "https://a.example/" 2 1 [.ok]).dbQueue) "https://a.example/" = 1 := by decide
example :
    pop_from_db [⟨"b", 2, 0⟩, ⟨"a", 1, 5⟩] = (some ("a", 1), [⟨"b", 2, 0⟩]) := by decide
example :
    pop_from_db [⟨"b", 1, 7⟩, ⟨"a", 1, 5⟩] = (some ("a", 1), [⟨"b", 1, 7⟩]) := by decide

/-! ## Robots Cache (`get_robot_rules` / `can_fetch` / `get_crawl_delay`) -/

/-- A successfully fetched and parsed robots.txt, as exposed by
`urllib.robotparser.RobotFileParser`: the `can_fetch("*", url)` capability
and the `crawl_delay("*")` hint (`none` when the file names no delay). -/
structure RobotsRules where
  canFetchFn : String → Bool
  crawlDelayOpt : Option Nat

/-- The per-domain cache `self.robot_parsers`: a domain maps to
`some rules` after a successful fetch+parse and to `none` after a failed
one. -/
structure RobotsCache where
  parsers : List (String × Option RobotsRules)

/-- `urlparse(url).netloc` (external standard library) on the http(s) URLs
this crawler handles: the host part after the scheme. -/
def netloc (url : String) : String :=
  if strStartsWith url "https://" then
    String.mk (((url.toList.drop 8).takeWhile (fun ch => ch != '/')))
  else if strStartsWith url "http://" then
    String.mk (((url.toList.drop 7).takeWhile (fun ch => ch != '/')))
  else ""

/-- The default `self.crawl_delay` set in `__init__`. -/
def defaultCrawlDelay : Nat := 5

/-- `get_robot_rules(url)`: on the first reference to a domain, fetch and
parse `https://{domain}/robots.txt` (the `fetchRobots` capability returns
`none` when that raises) and cache the result — also caching the failure;
afterwards answer from the cache without fetching.  The returned `Nat`
counts the fetch attempts performed by this call. -/
def get_robot_rules (fetchRobots : String → Option RobotsRules)
    (rc : RobotsCache) (url : String) :
    Option RobotsRules × RobotsCache × Nat :=
  let domain := netloc url
  match rc.parsers.lookup domain with
  | some cached => (cached, rc, 0)
  | none =>
    let fetched := fetchRobots ("https://" ++ domain ++ "/robots.txt")
    (fetched, ⟨rc.parsers ++ [(domain, fetched)]⟩, 1)

/-- `can_fetch(url)`: ask the cached parser; permission is assumed when the
parser could not be built. -/
def can_fetch (fetchRobots : String → Option RobotsRules)
    (rc : RobotsCache) (url : String) : Bool × RobotsCache :=
  match get_robot_rules fetchRobots rc url with
  | (some rp, rc', _) => (rp.canFetchFn url, rc')
  | (none, rc', _) => (true, rc')

/-- `get_crawl_delay(url)`: the parser's crawl-delay when it names a truthy
one, the default delay otherwise (a `Crawl-delay: 0` is falsy in Python and
also falls back to the default). -/
def get_crawl_delay (fetchRobots : String → Option RobotsRules)
    (rc : RobotsCache) (url : String) : Nat × RobotsCache :=
  match get_robot_rules fetchRobots rc url with
  | (some rp, rc', _) =>
    (match rp.crawlDelayOpt with
     | some d => if d ≠ 0 then d else defaultCrawlDelay
     | none => defaultCrawlDelay, rc')
  | (none, rc', _) => (defaultCrawlDelay, rc')

/-! ## Page Store upsert (`crawl_page`, src/app.py lines 159-175) -/

/-- A row of the `pages` table. -/
structure PageRow where
  url : String
  title : String
  content : String
  indexed_at : Nat
  last_crawled : Nat
deriving DecidableEq, Repr

/-- `INSERT OR REPLACE INTO pages VALUES (?, ?, ?, ?, ?)` keyed on the
primary-key url, stamping both timestamps with the current time. -/
def upsert_page (pages : List PageRow) (u t c : String) (now : Nat) : List PageRow :=
  pages.filter (fun r => r.url != u) ++ [⟨u, t, c, now, now⟩]

/-- The store retry loop around the upsert (`while retry_count < 3`): true
when one of the at most three observed attempts succeeds before a
non-contention error. -/
def retryUpsert : Nat → List StorageOutcome → Bool
  | 0, _ => false
  | _ + 1, [] => false
  | _ + 1, .ok :: _ => true
  | n + 1, .lockErr :: rest => retryUpsert n rest
  | _ + 1, .otherErr :: _ => false

/-! ## Fetch & Extract (`extract_links` / `crawl_page`) -/

/-- Whether a reference carries its own scheme (`https:`, `mailto:`, ...). -/
def hasScheme (href : String) : Bool :=
  match href.toList.dropWhile (fun ch => ch.isAlpha) with
  | ':' :: _ => !(href.toList.takeWhile (fun ch => ch.isAlpha)).isEmpty
  | _ => false

/-- Models `urllib.parse.urljoin` (external standard library) on the
reference shapes this crawler meets: references carrying their own scheme
pass through unchanged, an empty reference resolves to the base, and any
other reference is resolved against the base by appending to its last path
segment's directory (fragment references append to the base). -/
def urljoin (base href : String) : String :=
  if hasScheme href then href
  else if href = "" then base
  else if strStartsWith href "#" then base ++ href
  else if strStartsWith href "/" then
    "https://" ++ netloc base ++ href
  else
    String.mk (base.toList.take ((base.toList.length -
      (base.toList.reverse.takeWhile (fun ch => ch != '/')).length))) ++ href

/-- `extract_links(soup, base_url)`: resolve every anchor href against the
base url and keep it when the result is an http(s) URL containing no `#`
character. -/
def extract_links (anchors : List String) (base_url : String) : List String :=
  match anchors with
  | [] => []
  | href :: rest =>
    let full_url := urljoin base_url href
    if (strStartsWith full_url "http://" || strStartsWith full_url "https://")
        && !(full_url.toList.contains '#') then
      full_url :: extract_links rest base_url
    else
      extract_links rest base_url

example : extract_links ["https://b.example/x#y"] "https://a.example/" = [] := by decide
example :
    extract_links ["https://b.example/x", "#sec", "mailto:x@y.z"] "https://a.example/"
      = ["https://b.example/x"] := by decide

/-- Python `re.sub(r'\s+', ' ', s).strip()`: collapse whitespace runs to
single spaces and trim. -/
def collapseWs (s : String) : String :=
  String.intercalate " " (wordsAux [] s.toList)

/-- What one fetch attempt (`requests.get(url, ..., timeout=10)`) produces:
a response with a status code, a parsed title (`none` when the document has
no `<title>`), the texts of the heading/paragraph elements and the anchor
hrefs — or an exception (timeout, transport failure). -/
inductive FetchOutcome where
  | success (status : Nat) (titleOpt : Option String) (texts : List String)
      (anchors : List String)
  | transportError

/-- Everything `crawl_page` does that the claims observe. -/
structure CrawlPageResult where
  links : List String
  accessWrites : List Nat
  slept : Nat
  stored : Option PageRow
  cacheAfter : RobotsCache
  allowedOut : Bool

/-- The politeness block at the top of `crawl_page`: when the domain has a
recorded last access, look up the crawl delay and sleep out whatever remains
of the delay window at decision time `t0`.  Returns the seconds slept and
the possibly-updated robots cache. -/
def politeness_wait (fetchRobots : String → Option RobotsRules) (rc : RobotsCache)
    (lastAccess : Option Nat) (t0 : Nat) (url : String) : Nat × RobotsCache :=
  match lastAccess with
  | some la =>
    let dr := get_crawl_delay fetchRobots rc url
    (if t0 - la < dr.1 then dr.1 - (t0 - la) else 0, dr.2)
  | none => (0, rc)

/-- `crawl_page(url)`, following the source line by line: wait out the
politeness delay when the domain was accessed before (`t0` is the
`time.time()` of the decision point), record a last-access timestamp `t1`,
check robots permission (abort with no links if denied), fetch (`t2` is the
`time.time()` reached only when `requests.get` returns), and on a 200
response build the page row (`now` stamps both timestamps), attempt the
retried upsert and return the extracted links.  Any raise inside the `try`
— in particular a transport error of the fetch itself — yields no links,
no store and no second access write. -/
def crawl_page (fetchRobots : String → Option RobotsRules) (rc : RobotsCache)
    (lastAccess : Option Nat) (t0 t1 t2 now : Nat) (url : String)
    (fetch : FetchOutcome) (storeOutcomes : List StorageOutcome) : CrawlPageResult :=
  let sleptRc := politeness_wait fetchRobots rc lastAccess t0 url
  let allowedRc := can_fetch fetchRobots sleptRc.2 url
  if allowedRc.1 = false then
    { links := [], accessWrites := [t1], slept := sleptRc.1, stored := none,
      cacheAfter := allowedRc.2, allowedOut := false }
  else
    match fetch with
    | .transportError =>
      { links := [], accessWrites := [t1], slept := sleptRc.1, stored := none,
        cacheAfter := allowedRc.2, allowedOut := true }
    | .success status titleOpt texts anchors =>
      if status = 200 then
        let title := titleOpt.getD url
        let content := collapseWs (String.intercalate " " texts)
        { links := extract_links anchors url,
          accessWrites := [t1, t2], slept := sleptRc.1,
          stored := if retryUpsert 3 storeOutcomes
            then some ⟨url, title, content, now, now⟩ else none,
          cacheAfter := allowedRc.2, allowedOut := true }
      else
        { links := [], accessWrites := [t1, t2], slept := sleptRc.1,
          stored := none, cacheAfter := allowedRc.2, allowedOut := true }

/-! ## Helper lemmas -/

theorem filter_ne_filter_eq (ps : List PageRow) (u : String) :
    (ps.filter (fun r => r.url != u)).filter (fun r => r.url == u) = [] := by
  induction ps with
  | nil => rfl
  | cons a l ih =>
    by_cases h : a.url = u
    · simp [List.filter_cons, h, ih]
    · simp [List.filter_cons, h, ih]

theorem filter_upsert (ps : List PageRow) (u t c : String) (m : Nat) :
    (upsert_page ps u t c m).filter (fun r => r.url == u) = [⟨u, t, c, m, m⟩] := by
  simp [upsert_page, List.filter_append, filter_ne_filter_eq]

/-! ## The claims -/

/-- C7: `extract_keywords` returns `[]` both on the empty query and on the
all-stop-word query `"the and of"`, and `simple_search` on any query that
yields no keywords returns `[]` whatever the storage layer would have
answered — the no-keyword path performs no storage access, so no storage
error can surface there. -/
theorem no_keywords_no_results :
    extract_keywords "" = [] ∧ extract_keywords "the and of" = [] ∧
    ∀ (q : String) (db : Except DBErr (List Page)) (limit : Nat),
      extract_keywords q = [] → simple_search q db limit = [] := by
  refine ⟨by decide, by decide, ?_⟩
  intro q db limit h
  simp [simple_search, h]

/-- C7 witness: the all-stop-word query returns no results even when the
storage read would have reported a lock error. -/
theorem no_keywords_no_results_witness :
    simple_search "the and of" (Except.error DBErr.locked) 20 = [] :=
  no_keywords_no_results.2.2 "the and of" (Except.error DBErr.locked) 20 (by decide)

/-- C9: upserting the same `(url, title, content)` twice leaves exactly the
one row `⟨url, title, content, now₂, now₂⟩` for that url, both timestamps
stamped with the second call's time; and after any single upsert exactly one
row with the upserted url exists, whatever was stored before — re-crawling
overwrites rather than duplicates. -/
theorem upsert_same_page_idempotent (pages : List PageRow) (u t c : String) (n1 n2 : Nat) :
    (upsert_page (upsert_page pages u t c n1) u t c n2).filter (fun r => r.url == u)
      = [⟨u, t, c, n2, n2⟩] ∧
    ∀ (ps : List PageRow) (u' t' c' : String) (m : Nat),
      ((upsert_page ps u' t' c' m).filter (fun r => r.url == u')).length = 1 :=
  ⟨filter_upsert _ _ _ _ _, fun ps u' t' c' m => by rw [filter_upsert]; rfl⟩

/-- C6 counterexample: `"https://b.example/x#y"` is an outbound absolute
http(s) link to a different page than the base `"https://a.example/"` — it
is not an in-page fragment-only link, so the claim requires it to be
returned — yet `extract_links` drops it, because the code excludes every
resolved URL containing `#`. -/
theorem extract_links_drops_cross_page_fragment :
    urljoin "https://a.example/" "https://b.example/x#y" = "https://b.example/x#y" ∧
    extract_links ["https://b.example/x#y"] "https://a.example/" = [] := by
  exact ⟨by decide, by decide⟩

/-- C6 (amended): the links returned are exactly the anchor hrefs resolved
against the base URL that are http(s) URLs containing no `#` character at
all — every fragment-carrying link is excluded, not only in-page
fragment-only ones — kept in document order. -/
theorem extract_links_spec (anchors : List String) (base_url : String) :
    extract_links anchors base_url =
      (anchors.map (urljoin base_url)).filter
        (fun u => (strStartsWith u "http://" || strStartsWith u "https://")
          && !(u.toList.contains '#')) := by
  induction anchors with
  | nil => rfl
  | cons href rest ih =>
    simp only [extract_links, List.map_cons, List.filter_cons, ih]

/-- C3 counterexample: a frontier push whose very first insert attempt
hits storage contention sleeps one second and then blocks forever
re-acquiring the non-reentrant lock its own thread already holds — the
insert is never retried (the row is never inserted) and the call never
returns, contradicting the claimed up-to-3-retries followed by a silent
return. -/
theorem push_contention_never_returns :
    add_url_to_queue_sync ⟨[], [], [], 0⟩ "https://a.example/" 1 0 .lockErr
      = .blocked ⟨[], [], [], 1⟩ := by
  decide

/-- C3 (amended): a frontier push that hits storage contention is not
retried at all: the contention handler sleeps one second and re-enters the
push while the thread still holds the non-reentrant lock, blocking forever
on the acquire — the insert is never re-attempted, the persistent queue and
the in-memory mirror are left unchanged, and the call never returns
(neither raising nor returning silently).  A push whose single insert
attempt succeeds returns with the row inserted and mirrored; a
non-contention storage error is swallowed silently with nothing changed. -/
theorem push_contention_deadlocks (st : CrawlerState) (u : String) (p : Int)
    (n : Nat) (h1 : u ≠ "") (h2 : st.visited.contains u = false) :
    add_url_to_queue_sync st u p n .lockErr
      = .blocked { st with slept := st.slept + 1 } ∧
    add_url_to_queue_sync st u p n .ok
      = .returned { st with dbQueue := insertOrIgnore st.dbQueue ⟨u, p, n⟩,
                            memQueue := st.memQueue ++ [(p, u)] } ∧
    add_url_to_queue_sync st u p n .otherErr = .returned st := by
  have h2' : u ∉ st.visited := by simpa using h2
  refine ⟨?_, ?_, ?_⟩ <;> simp [add_url_to_queue_sync, h1, h2']

/-- C3 witness: the three single-attempt outcomes for a fresh URL from a
state with one second already slept. -/
theorem push_contention_deadlocks_witness :
    add_url_to_queue_sync ⟨[], [], [], 1⟩ "https://b.example/" 2 3 .lockErr
      = .blocked ⟨[], [], [], 2⟩ ∧
    add_url_to_queue_sync ⟨[], [], [], 1⟩ "https://b.example/" 2 3 .ok
      = .returned ⟨insertOrIgnore [] ⟨"https://b.example/", 2, 3⟩,
          [(2, "https://b.example/")], [], 1⟩ ∧
    add_url_to_queue_sync ⟨[], [], [], 1⟩ "https://b.example/" 2 3 .otherErr
      = .returned ⟨[], [], [], 1⟩ :=
  push_contention_deadlocks ⟨[], [], [], 1⟩ "https://b.example/" 2 3
    (by decide) (by decide)

theorem countUrl_any_false {q : List QueueEntry} {u : String}
    (h : q.any (fun x => x.url == u) = false) : countUrl q u = 0 := by
  rw [countUrl, List.countP_eq_zero]
  intro e he
  simp only [List.any_eq_false] at h
  exact h e he

theorem countUrl_any_true {q : List QueueEntry} {u : String}
    (h : q.any (fun x => x.url == u) = true) : 0 < countUrl q u := by
  rw [countUrl, List.countP_pos_iff]
  simpa using h

theorem countUrl_insertOrIgnore_self (q : List QueueEntry) (e : QueueEntry)
    (h : countUrl q e.url ≤ 1) : countUrl (insertOrIgnore q e) e.url = 1 := by
  by_cases ha : q.any (fun x => x.url == e.url) = true
  · have hpos := countUrl_any_true ha
    rw [insertOrIgnore, if_pos ha]
    omega
  · have h0 : countUrl q e.url = 0 := countUrl_any_false (by simpa using ha)
    rw [insertOrIgnore, if_neg ha]
    unfold countUrl at h0 ⊢
    rw [List.countP_append, h0]
    simp

theorem countUrl_insertOrIgnore_le (q : List QueueEntry) (e : QueueEntry) (w : String)
    (h : countUrl q w ≤ 1) : countUrl (insertOrIgnore q e) w ≤ 1 := by
  by_cases ha : q.any (fun x => x.url == e.url) = true
  · rwa [insertOrIgnore, if_pos ha]
  · rw [insertOrIgnore, if_neg ha]
    unfold countUrl at h ⊢
    rw [List.countP_append]
    by_cases hw : e.url = w
    · have h0 : List.countP (fun x => x.url == w) q = 0 := by
        have h0' := countUrl_any_false (q := q) (u := e.url) (by simpa using ha)
        unfold countUrl at h0'
        rwa [hw] at h0'
      have hle : List.countP (fun x => x.url == w) [e] ≤ 1 := by
        by_cases hpe : (e.url == w) = true <;> simp [List.countP_cons, hpe]
      omega
    · have h1 : List.countP (fun x => x.url == w) [e] = 0 := by
        simp [List.countP_cons, hw]
      omega

theorem add_url_dbQueue_cases (u : String) (p : Int) (n : Nat)
    (oc : List StorageOutcome) (st : CrawlerState) :
    (add_url_to_queue st u p n oc).dbQueue = st.dbQueue ∨
    (add_url_to_queue st u p n oc).dbQueue = insertOrIgnore st.dbQueue ⟨u, p, n⟩ := by
  induction oc generalizing st with
  | nil => exact Or.inl rfl
  | cons o rest ih =>
    cases o with
    | ok =>
      by_cases hg : u = "" ∨ u ∈ st.visited
      · exact Or.inl (by simp [add_url_to_queue, hg])
      · exact Or.inr (by simp [add_url_to_queue, hg])
    | lockErr =>
      by_cases hg : u = "" ∨ u ∈ st.visited
      · exact Or.inl (by simp [add_url_to_queue, hg])
      · have := ih { st with slept := st.slept + 1 }
        simpa [add_url_to_queue, hg] using this
    | otherErr => exact Or.inl (by simp [add_url_to_queue])

theorem add_url_visited_eq (u : String) (p : Int) (n : Nat)
    (oc : List StorageOutcome) (st : CrawlerState) :
    (add_url_to_queue st u p n oc).visited = st.visited := by
  induction oc generalizing st with
  | nil => rfl
  | cons o rest ih =>
    cases o with
    | ok =>
      by_cases hg : u = "" ∨ u ∈ st.visited
      · simp [add_url_to_queue, hg]
      · simp [add_url_to_queue, hg]
    | lockErr =>
      by_cases hg : u = "" ∨ u ∈ st.visited
      · simp [add_url_to_queue, hg]
      · have := ih { st with slept := st.slept + 1 }
        simpa [add_url_to_queue, hg] using this
    | otherErr => simp [add_url_to_queue]

/-- C2 counterexample: for a URL already in the visited set, both pushes are
silent no-ops, so the two pushes leave zero entries for it in the persistent
frontier — not exactly one as the claim states for every URL. -/
theorem push_push_visited_leaves_no_entry :
    countUrl ((add_url_to_queue (add_url_to_queue
        ⟨[], [], ["https://seen.example/"], 0⟩ "https://seen.example/" 1 0 [.ok])
        "https://seen.example/" 2 1 [.ok]).dbQueue) "https://seen.example/" = 0 := by
  decide

/-- C2 (amended): for every non-empty URL `u` not in the visited set,
pushing `u` twice (with the storage insert succeeding) leaves exactly one
entry for `u` in the persistent frontier, provided `u` occupied at most one
row before; and every push — whatever its outcome schedule — preserves the
at-most-one-row invariant for every URL. -/
theorem push_push_unique (st : CrawlerState) (u : String) (p q : Int) (n m : Nat)
    (h1 : u ≠ "") (h2 : st.visited.contains u = false)
    (h3 : countUrl st.dbQueue u ≤ 1) :
    countUrl ((add_url_to_queue (add_url_to_queue st u p n [.ok]) u q m [.ok]).dbQueue) u = 1
    ∧ ∀ (st' : CrawlerState) (v : String) (p' : Int) (n' : Nat)
        (oc : List StorageOutcome) (w : String),
        countUrl st'.dbQueue w ≤ 1 →
        countUrl ((add_url_to_queue st' v p' n' oc).dbQueue) w ≤ 1 := by
  constructor
  · have h2' : u ∉ st.visited := by simpa using h2
    have hfirst : add_url_to_queue st u p n [.ok] =
        { st with dbQueue := insertOrIgnore st.dbQueue ⟨u, p, n⟩,
                  memQueue := st.memQueue ++ [(p, u)] } := by
      simp [add_url_to_queue, h1, h2']
    rw [hfirst]
    have hsecond : add_url_to_queue
        { st with dbQueue := insertOrIgnore st.dbQueue ⟨u, p, n⟩,
                  memQueue := st.memQueue ++ [(p, u)] } u q m [.ok] =
        { st with dbQueue := insertOrIgnore (insertOrIgnore st.dbQueue ⟨u, p, n⟩) ⟨u, q, m⟩,
                  memQueue := (st.memQueue ++ [(p, u)]) ++ [(q, u)] } := by
      simp [add_url_to_queue, h1, h2']
    rw [hsecond]
    have hc1 : countUrl (insertOrIgnore st.dbQueue ⟨u, p, n⟩) u = 1 :=
      countUrl_insertOrIgnore_self st.dbQueue ⟨u, p, n⟩ h3
    exact countUrl_insertOrIgnore_self _ ⟨u, q, m⟩ (by rw [hc1])
  · intro st' v p' n' oc w hw
    rcases add_url_dbQueue_cases v p' n' oc st' with hcase | hcase
    · rwa [hcase]
    · rw [hcase]
      exact countUrl_insertOrIgnore_le _ _ _ hw

/-- C2 witness: a fresh URL pushed twice from the empty state occupies
exactly one row. -/
theorem push_push_unique_witness :
    countUrl ((add_url_to_queue (add_url_to_queue ⟨[], [], [], 0⟩
        "https://w.example/" 1 0 [.ok]) "https://w.example/" 2 1 [.ok]).dbQueue)
      "https://w.example/" = 1 :=
  (push_push_unique ⟨[], [], [], 0⟩ "https://w.example/" 1 2 0 1 (by decide)
    (by decide) (by decide)).1

theorem entryLe_refl (a : QueueEntry) : entryLe a a = true := by
  simp [entryLe]

theorem entryLe_of_entryLt {a b : QueueEntry} (h : entryLt a b = true) :
    entryLe a b = true := by
  simp only [entryLt, entryLe, Bool.or_eq_true, Bool.and_eq_true,
    decide_eq_true_eq, beq_iff_eq] at h ⊢
  omega

theorem entryLe_of_not_entryLt {a b : QueueEntry} (h : ¬entryLt a b = true) :
    entryLe b a = true := by
  simp only [entryLt, entryLe, Bool.or_eq_true, Bool.and_eq_true,
    decide_eq_true_eq, beq_iff_eq] at h ⊢
  omega

theorem entryLe_trans {a b c : QueueEntry} (h1 : entryLe a b = true)
    (h2 : entryLe b c = true) : entryLe a c = true := by
  simp only [entryLe, Bool.or_eq_true, Bool.and_eq_true,
    decide_eq_true_eq, beq_iff_eq] at h1 h2 ⊢
  omega

theorem selectMinAux_mem (l : List QueueEntry) (m : QueueEntry) :
    selectMinAux m l = m ∨ selectMinAux m l ∈ l := by
  induction l generalizing m with
  | nil => exact Or.inl rfl
  | cons x rest ih =>
    rw [selectMinAux]
    by_cases h : entryLt x m = true
    · rw [if_pos h]
      rcases ih x with h' | h'
      · exact Or.inr (by rw [h']; exact List.mem_cons_self x rest)
      · exact Or.inr (List.mem_cons_of_mem x h')
    · rw [if_neg h]
      rcases ih m with h' | h'
      · exact Or.inl h'
      · exact Or.inr (List.mem_cons_of_mem x h')

theorem selectMinAux_le (l : List QueueEntry) (m : QueueEntry) :
    entryLe (selectMinAux m l) m = true ∧
    ∀ x ∈ l, entryLe (selectMinAux m l) x = true := by
  induction l generalizing m with
  | nil => exact ⟨entryLe_refl m, by simp⟩
  | cons y rest ih =>
    rw [selectMinAux]
    by_cases h : entryLt y m = true
    · rw [if_pos h]
      obtain ⟨h1, h2⟩ := ih y
      refine ⟨entryLe_trans h1 (entryLe_of_entryLt h), ?_⟩
      intro x hx
      rcases List.mem_cons.mp hx with rfl | hx'
      · exact h1
      · exact h2 x hx'
    · rw [if_neg h]
      obtain ⟨h1, h2⟩ := ih m
      refine ⟨h1, ?_⟩
      intro x hx
      rcases List.mem_cons.mp hx with rfl | hx'
      · exact entryLe_trans h1 (entryLe_of_not_entryLt h)
      · exact h2 x hx'

/-- C4: on an empty frontier the pop returns empty and leaves the table
unchanged; on a non-empty frontier the `SELECT ... ORDER BY priority,
added_at LIMIT 1` result exists, and any selected row is a row of the table
that every row relates to under `(priority ascending, added_at ascending)`,
and the pop returns its `(url, priority)` while deleting exactly that url's
row from the table — the read and the delete being one atomic step of the
embedding, as they sit in one locked transaction in the code. -/
theorem crawl_worker_pop_spec (q : List QueueEntry) :
    (q = [] → pop_from_db q = (none, q)) ∧
    (q ≠ [] → (selectMin q).isSome = true) ∧
    (∀ e, selectMin q = some e →
      e ∈ q ∧ (∀ x ∈ q, entryLe e x = true) ∧
      pop_from_db q = (some (e.url, e.priority), q.filter (fun x => x.url != e.url))) := by
  refine ⟨?_, ?_, ?_⟩
  · rintro rfl
    rfl
  · intro hne
    cases q with
    | nil => exact absurd rfl hne
    | cons a rest => rfl
  · intro e he
    cases q with
    | nil => cases he
    | cons a rest =>
      have hsel : selectMinAux a rest = e := by
        simpa [selectMin] using he
      have hmem : e ∈ a :: rest := by
        rcases selectMinAux_mem rest a with h' | h'
        · rw [hsel] at h'
          exact h' ▸ List.mem_cons_self a rest
        · rw [hsel] at h'
          exact List.mem_cons_of_mem a h'
      obtain ⟨h1, h2⟩ := selectMinAux_le rest a
      rw [hsel] at h1 h2
      refine ⟨hmem, ?_, ?_⟩
      · intro x hx
        rcases List.mem_cons.mp hx with rfl | hx'
        · exact h1
        · exact h2 x hx'
      · rw [pop_from_db, he]

/-- C4 witness: a two-row frontier pops the priority-1 row and deletes it. -/
theorem crawl_worker_pop_spec_witness :
    pop_from_db [⟨"https://b.example/", 2, 0⟩, ⟨"https://a.example/", 1, 5⟩]
      = (some ("https://a.example/", 1), [⟨"https://b.example/", 2, 0⟩]) := by
  have h := ((crawl_worker_pop_spec
    [⟨"https://b.example/", 2, 0⟩, ⟨"https://a.example/", 1, 5⟩]).2.2
    ⟨"https://a.example/", 1, 5⟩ (by decide)).2.2
  rw [h]
  decide

/-- C5 counterexample: with a previously accessed domain, robots permission
granted (the robots fetch fails, so permission is assumed), and the page
fetch raising a transport error, `crawl_page` records only the single
pre-fetch last-access timestamp `t1 = 5` — no timestamp is recorded after
the failed fetch attempt, contrary to the claim. -/
theorem crawl_page_transport_error_single_write :
    (crawl_page (fun _ => none) ⟨[]⟩ (some 0) 0 5 9 7 "https://ex.example/a"
      .transportError []).allowedOut = true ∧
    (crawl_page (fun _ => none) ⟨[]⟩ (some 0) 0 5 9 7 "https://ex.example/a"
      .transportError []).accessWrites = [5] := by
  exact ⟨rfl, rfl⟩

/-- C5 (amended): for a URL whose robots rules allow fetching, a fresh
last-access timestamp is always recorded before the fetch attempt; a second
one is recorded after the fetch only when `requests.get` returns a response
(whatever its status code) — when the fetch raises (transport error,
timeout), the pre-fetch timestamp is the only one recorded. -/
theorem crawl_page_access_writes (f : String → Option RobotsRules)
    (rc : RobotsCache) (la : Option Nat) (t0 t1 t2 now : Nat) (url : String)
    (fetch : FetchOutcome) (so : List StorageOutcome)
    (hallow : (crawl_page f rc la t0 t1 t2 now url fetch so).allowedOut = true) :
    (fetch = .transportError →
      (crawl_page f rc la t0 t1 t2 now url fetch so).accessWrites = [t1]) ∧
    (∀ status titleOpt texts anchors,
      fetch = .success status titleOpt texts anchors →
      (crawl_page f rc la t0 t1 t2 now url fetch so).accessWrites = [t1, t2]) := by
  unfold crawl_page at hallow ⊢
  by_cases hfalse :
      (can_fetch f (politeness_wait f rc la t0 url).2 url).1 = false
  · rw [if_pos hfalse] at hallow
    cases hallow
  · rw [if_neg hfalse] at hallow ⊢
    constructor
    · rintro rfl
      rfl
    · rintro status titleOpt texts anchors rfl
      by_cases hst : status = 200 <;> simp [hst]

/-- C5 witness: same configuration as the counterexample but with the fetch
returning a 200 response: both timestamps are recorded. -/
theorem crawl_page_access_writes_witness :
    (crawl_page (fun _ => none) ⟨[]⟩ (some 0) 0 5 9 7 "https://ex.example/a"
      (.success 200 none [] []) []).accessWrites = [5, 9] :=
  (crawl_page_access_writes (fun _ => none) ⟨[]⟩ (some 0) 0 5 9 7
    "https://ex.example/a" (.success 200 none [] []) [] rfl).2 200 none [] [] rfl

theorem lookup_append_self {β : Type} (l : List (String × β)) (d : String) (v : β)
    (h : List.lookup d l = none) : List.lookup d (l ++ [(d, v)]) = some v := by
  induction l with
  | nil => simp [List.lookup]
  | cons a rest ih =>
    obtain ⟨k, w⟩ := a
    by_cases hk : (d == k) = true
    · simp [List.lookup, hk] at h
    · have hk' : (d == k) = false := by simpa using hk
      simp only [List.cons_append, List.lookup, hk'] at h ⊢
      exact ih h

/-- C8: when the robots fetch+parse for a domain fails, the failure itself
is cached for the domain — a permissive decision: `can_fetch` answers
`true` and `get_crawl_delay` answers the default delay for every URL of
that domain, neither touching the cache again; and for any domain already
in the cache, `get_robot_rules` performs zero fetches and leaves the cache
unchanged, so a domain's entry is populated at most once per process
lifetime. -/
theorem robots_failure_fail_open (f : String → Option RobotsRules)
    (rc : RobotsCache) (url : String)
    (hmiss : List.lookup (netloc url) rc.parsers = none)
    (hfail : f ("https://" ++ netloc url ++ "/robots.txt") = none) :
    List.lookup (netloc url) (get_robot_rules f rc url).2.1.parsers = some none ∧
    (∀ u : String, netloc u = netloc url →
      can_fetch f (get_robot_rules f rc url).2.1 u
        = (true, (get_robot_rules f rc url).2.1) ∧
      get_crawl_delay f (get_robot_rules f rc url).2.1 u
        = (defaultCrawlDelay, (get_robot_rules f rc url).2.1)) ∧
    (∀ (rc' : RobotsCache) (u : String) (entry : Option RobotsRules),
      List.lookup (netloc u) rc'.parsers = some entry →
      get_robot_rules f rc' u = (entry, rc', 0)) := by
  have hg : get_robot_rules f rc url =
      (none, ⟨rc.parsers ++ [(netloc url, none)]⟩, 1) := by
    simp [get_robot_rules, hmiss, hfail]
  have hcachedAt : ∀ (rc' : RobotsCache) (u : String) (entry : Option RobotsRules),
      List.lookup (netloc u) rc'.parsers = some entry →
      get_robot_rules f rc' u = (entry, rc', 0) := by
    intro rc' u entry hl
    simp [get_robot_rules, hl]
  refine ⟨?_, ?_, hcachedAt⟩
  · rw [hg]
    exact lookup_append_self _ _ _ hmiss
  · intro u hu
    have hcached :
        List.lookup (netloc u) (get_robot_rules f rc url).2.1.parsers = some none := by
      rw [hu, hg]
      exact lookup_append_self _ _ _ hmiss
    have hrp : get_robot_rules f (get_robot_rules f rc url).2.1 u =
        (none, (get_robot_rules f rc url).2.1, 0) :=
      hcachedAt _ u none hcached
    constructor
    · rw [can_fetch, hrp]
    · rw [get_crawl_delay, hrp]

/-- C8 witness: with every robots fetch failing, the first reference to
`ex.example` caches the failure and a second URL of the domain is allowed
with the cache unchanged. -/
theorem robots_failure_fail_open_witness :
    can_fetch (fun _ => none)
        (get_robot_rules (fun _ => none) ⟨[]⟩ "https://ex.example/a").2.1
        "https://ex.example/b"
      = (true, (get_robot_rules (fun _ => none) ⟨[]⟩ "https://ex.example/a").2.1) :=
  ((robots_failure_fail_open (fun _ => none) ⟨[]⟩ "https://ex.example/a" rfl rfl).2.1
    "https://ex.example/b" rfl).1

theorem add_url_proj (u : String) (p : Int) (n : Nat) (oc : List StorageOutcome)
    (s1 s2 : CrawlerState) (hdb : s1.dbQueue = s2.dbQueue)
    (hv : s1.visited = s2.visited) :
    (add_url_to_queue s1 u p n oc).dbQueue = (add_url_to_queue s2 u p n oc).dbQueue ∧
    (add_url_to_queue s1 u p n oc).visited = (add_url_to_queue s2 u p n oc).visited := by
  induction oc generalizing s1 s2 with
  | nil => exact ⟨hdb, hv⟩
  | cons o rest ih =>
    cases o with
    | ok =>
      by_cases hg : u = "" ∨ u ∈ s1.visited
      · have hg2 : u = "" ∨ u ∈ s2.visited := by rwa [hv] at hg
        simp [add_url_to_queue, hg, hg2, hdb, hv]
      · have hg2 : ¬(u = "" ∨ u ∈ s2.visited) := by rwa [hv] at hg
        simp [add_url_to_queue, hg, hg2, hdb, hv]
    | lockErr =>
      by_cases hg : u = "" ∨ u ∈ s1.visited
      · have hg2 : u = "" ∨ u ∈ s2.visited := by rwa [hv] at hg
        simp [add_url_to_queue, hg, hg2, hdb, hv]
      · have hg2 : ¬(u = "" ∨ u ∈ s2.visited) := by rwa [hv] at hg
        have hrec := ih { s1 with slept := s1.slept + 1 }
          { s2 with slept := s2.slept + 1 } hdb hv
        simpa [add_url_to_queue, hg, hg2] using hrec
    | otherErr => simp [add_url_to_queue, hdb, hv]

/-- C10: the answers of the pops in any interleaved sequence of frontier
pushes and pops are determined by the persistent queue table (together with
the visited set consulted by pushes) alone: two crawler states agreeing on
those but with arbitrary — possibly duplicate-laden — in-memory
priority-queue mirrors produce identical pop answers and identical
persistent queues, because the pop reads only the table and the mirror is
written but never read. -/
theorem pops_determined_by_db (ops : List FrontierOp) (s1 s2 : CrawlerState)
    (hdb : s1.dbQueue = s2.dbQueue) (hv : s1.visited = s2.visited) :
    (runOps ops s1).1 = (runOps ops s2).1 ∧
    (runOps ops s1).2.dbQueue = (runOps ops s2).2.dbQueue ∧
    (runOps ops s1).2.visited = (runOps ops s2).2.visited := by
  induction ops generalizing s1 s2 with
  | nil => exact ⟨rfl, hdb, hv⟩
  | cons op rest ih =>
    cases op with
    | push u p n oc =>
      obtain ⟨h1, h2⟩ := add_url_proj u p n oc s1 s2 hdb hv
      simpa [runOps] using ih _ _ h1 h2
    | pop =>
      simp only [runOps, frontier_pop]
      rw [hdb]
      have ih' := ih { s1 with dbQueue := (pop_from_db s2.dbQueue).2 }
        { s2 with dbQueue := (pop_from_db s2.dbQueue).2 } rfl hv
      exact ⟨by rw [ih'.1], ih'.2.1, ih'.2.2⟩

/-- C10 witness: a push followed by two pops answers identically from two
states that differ only in the contents of the in-memory mirror (and the
sleep counter). -/
theorem pops_determined_by_db_witness :
    (runOps [.push "https://a.example/" 1 0 [.ok], .pop, .pop] ⟨[], [], [], 0⟩).1 =
    (runOps [.push "https://a.example/" 1 0 [.ok], .pop, .pop]
      ⟨[], [(7, "https://junk.example/")], [], 3⟩).1 :=
  (pops_determined_by_db [.push "https://a.example/" 1 0 [.ok], .pop, .pop]
    ⟨[], [], [], 0⟩ ⟨[], [(7, "https://junk.example/")], [], 3⟩ rfl rfl).1

theorem sortByScoreDesc_pairwise (K : List String) (l : List Page) :
    List.Pairwise (fun a b => rank_result K b ≤ rank_result K a)
      (sortByScoreDesc K l) := by
  haveI : IsTotal Page (scoreGe K) := ⟨fun a b => Nat.le_total _ _⟩
  haveI : IsTrans Page (scoreGe K) := ⟨fun _ _ _ h1 h2 => Nat.le_trans h2 h1⟩
  exact List.sorted_insertionSort (scoreGe K) l

theorem sortByScoreDesc_perm (K : List String) (l : List Page) :
    List.Perm (sortByScoreDesc K l) l :=
  List.perm_insertionSort (scoreGe K) l

theorem sortByScoreDesc_length (K : List String) (l : List Page) :
    (sortByScoreDesc K l).length = l.length :=
  (sortByScoreDesc_perm K l).length_eq

theorem sortByScoreDesc_filter_score (K : List String) (l : List Page) (s : Nat) :
    (sortByScoreDesc K l).filter (fun p => rank_result K p == s)
      = l.filter (fun p => rank_result K p == s) := by
  have hpair : (l.filter (fun p => rank_result K p == s)).Pairwise (scoreGe K) := by
    apply List.pairwise_of_forall_mem_list
    intro a ha b hb
    have ha' : rank_result K a = s := by
      simpa using (List.mem_filter.mp ha).2
    have hb' : rank_result K b = s := by
      simpa using (List.mem_filter.mp hb).2
    simp [scoreGe, ha', hb']
  have hfself : (l.filter (fun p => rank_result K p == s)).filter
      (fun p => rank_result K p == s) = l.filter (fun p => rank_result K p == s) := by
    apply List.filter_eq_self.mpr
    intro a ha
    exact (List.mem_filter.mp ha).2
  have hsub : List.Sublist (l.filter (fun p => rank_result K p == s))
      ((sortByScoreDesc K l).filter (fun p => rank_result K p == s)) := by
    have h1 : List.Sublist (l.filter (fun p => rank_result K p == s)) (sortByScoreDesc K l) :=
      List.sublist_insertionSort hpair (List.filter_sublist l)
    have h2 := h1.filter (fun p => rank_result K p == s)
    rwa [hfself] at h2
  have hlen : ((sortByScoreDesc K l).filter (fun p => rank_result K p == s)).length
      = (l.filter (fun p => rank_result K p == s)).length :=
    ((sortByScoreDesc_perm K l).filter _).length_eq
  exact (hsub.eq_of_length hlen.symm).symm

/-- C1: `simple_search`'s results are at most `limit` many, sorted by the
code's score — the sum over the extracted keywords of the case-insensitive
non-overlapping occurrence count in the title times 3, in the url times 2
and in the content times 1 — in descending order; within every score tier
the results are the candidate pages in storage order (stable sort); the
result count is exactly the smaller of `limit` and the candidate count; and
a call that leaves `limit` unspecified returns at most 20 results. -/
theorem simple_search_spec (query : String) (pages : List Page) (limit : Nat) :
    (simple_search query (Except.ok pages) limit).length ≤ limit ∧
    List.Pairwise (fun a b => rank_result (extract_keywords query) b ≤
        rank_result (extract_keywords query) a)
      (simple_search query (Except.ok pages) limit) ∧
    (∀ s : Nat,
      ((simple_search query (Except.ok pages) limit).filter
          (fun p => rank_result (extract_keywords query) p == s)).Sublist
        ((searchCandidates (extract_keywords query) pages).filter
          (fun p => rank_result (extract_keywords query) p == s))) ∧
    (simple_search query (Except.ok pages) limit).length
      = min limit (searchCandidates (extract_keywords query) pages).length ∧
    (simple_search query (Except.ok pages)).length ≤ 20 := by
  by_cases hk : (extract_keywords query).isEmpty = true
  · have hknil : extract_keywords query = [] := by
      simpa [List.isEmpty_iff] using hk
    have hres : ∀ l : Nat, simple_search query (Except.ok pages) l = [] := by
      intro l
      simp [simple_search, hk]
    have hcand : searchCandidates (extract_keywords query) pages = [] := by
      simp [searchCandidates, pageMatches, hknil]
    refine ⟨?_, ?_, ?_, ?_, ?_⟩
    · simp [hres]
    · simp [hres]
    · intro s
      simp [hres]
    · simp [hres, hcand]
    · simp [hres]
  · have hres : ∀ l : Nat, simple_search query (Except.ok pages) l =
        (sortByScoreDesc (extract_keywords query)
          (searchCandidates (extract_keywords query) pages)).take l := by
      intro l
      simp [simple_search, hk]
    refine ⟨?_, ?_, ?_, ?_, ?_⟩
    · rw [hres]
      exact List.length_take_le limit _
    · rw [hres]
      exact (sortByScoreDesc_pairwise (extract_keywords query)
        (searchCandidates (extract_keywords query) pages)).sublist
        (List.take_sublist limit _)
    · intro s
      rw [hres]
      have h1 := (List.take_sublist limit (sortByScoreDesc (extract_keywords query)
        (searchCandidates (extract_keywords query) pages))).filter
        (fun p => rank_result (extract_keywords query) p == s)
      rwa [sortByScoreDesc_filter_score] at h1
    · rw [hres, List.length_take, sortByScoreDesc_length]
    · rw [hres]
      exact List.length_take_le 20 _

end DoveSearch
